import Mathlib

/-!
Verification of the block-commitment core of `plasma-contracts`
(`plasma_core/block.py`), via a shallow embedding in Lean 4.

The `Block` class is translated directly from `src/plasma_core/block.py`.
Its collaborators (`plasma_core.utils.signatures`, the `FixedMerkle` tree,
`plasma_core.constants.NULL_SIGNATURE`, the `Transaction` type, the RLP
serialization library and `ethereum.utils.sha3`) are part of the repository
or its libraries but their source is not available here; each of those is
modelled from the specification, as noted in its doc comment.
-/

/-- Byte strings, modelled as lists of naturals (one per byte). -/
abbrev Bytes := List Nat

/-- Modelled from the spec: `ethereum.utils.sha3`, the system's cryptographic
hash function with a 32-byte digest (spec section 4.3).  The source of the
`ethereum` library is not in the repository, so the hash is realised by an
executable stand-in that always outputs exactly 32 bytes; the claims below
depend only on determinism and on the output length. -/
def sha3 (input : Bytes) : Bytes :=
  let seed := input.foldl (fun acc b => (acc * 131 + b + 1) % 4294967291) 7
  (List.range 32).map (fun i => (seed * (i + 1) + i * 2654435761) % 256)

/-- Modelled from the spec: the `Transaction` collaborator (spec section 3).
Only the surface this core consumes is modelled: the transaction's own
canonical encoding (opaque to this core), and the `is_deposit` flag. -/
structure Transaction where
  encodedBytes : Bytes
  is_deposit : Bool
deriving DecidableEq

/-- Modelled from the spec: `merkle_hash` is the cryptographic hash function
applied to the transaction's own canonical encoding (spec section 3). -/
def Transaction.merkle_hash (t : Transaction) : Bytes :=
  sha3 t.encodedBytes

/-- Modelled from the spec: `plasma_core.constants.NULL_SIGNATURE`, the fixed
null-signature sentinel — all-zero signature bytes of the signature's byte
length (65 bytes for an r‖s‖v signature; spec section 6). -/
def NULL_SIGNATURE : Bytes := List.replicate 65 0

/-- Error raised by signature recovery (spec section 7). -/
inductive SigError where
  | InvalidSignature
deriving DecidableEq

/-- Modelled from the spec: `address_of`, the public address corresponding to
a private key — a 20-byte value derived from the key (the last 20 bytes of a
hash, as in the spec's signature collaborator surface, section 8). -/
def address_of (key : Bytes) : Bytes :=
  (sha3 key).drop 12

/-- Modelled from the spec: `plasma_core.utils.signatures.sign`, the
elliptic-curve signature over a digest with a private key (spec section 6).
The source is not in the repository; the model realises the specified
interface: a 65-byte signature, never equal to the null sentinel, from which
the signer's address is recoverable. -/
def signatures.sign (digest : Bytes) (key : Bytes) : Bytes :=
  27 :: (address_of key ++ (sha3 (digest ++ key) ++ sha3 (key ++ digest)).take 44)

/-- Modelled from the spec: `plasma_core.utils.signatures.get_signer`
(`recover_signer`), which recovers the public address from a digest and a
signature, and fails distinguishably with `InvalidSignature` on the
null-sentinel signature or a malformed (wrong-length) signature
(spec sections 6 and 7). -/
def signatures.get_signer (digest : Bytes) (sig : Bytes) : Except SigError Bytes :=
  if sig = NULL_SIGNATURE then Except.error SigError.InvalidSignature
  else if sig.length ≠ 65 then Except.error SigError.InvalidSignature
  else Except.ok ((sig.drop 1).take 20)

/-- Modelled from the spec: the fixed padding-leaf hash used to fill unused
leaf slots of the fixed-depth Merkle tree (spec section 4.1).  The spec
leaves the convention open between all-zero and hash-of-empty-bytes; the
all-zero 32-byte convention is fixed here and documented. -/
def EMPTY_LEAF : Bytes := List.replicate 32 0

/-- Error raised by the fixed-depth Merkle tree (spec section 7). -/
inductive MerkleError where
  | TreeDepthExceeded
deriving DecidableEq

/-- One bottom-up level of the Merkle tree: each internal node is the hash of
the concatenation of its two children, left before right (spec section 4.1). -/
def combineLevel : List Bytes → List Bytes
  | [] => []
  | [x] => [x]
  | a :: b :: rest => sha3 (a ++ b) :: combineLevel rest

/-- Bottom-up construction of the root of a depth-`d` tree from its padded
leaf level (spec section 4.1: tree construction is done bottom-up). -/
def buildRoot : Nat → List Bytes → Bytes
  | 0, l => l.headD EMPTY_LEAF
  | d + 1, l => buildRoot d (combineLevel l)

/-- Modelled from the spec: the `FixedMerkle` tree object
(`plasma_core.utils.merkle.fixed_merkle.FixedMerkle`), holding its depth,
its padded leaf level and its root. -/
structure FixedMerkle where
  depth : Nat
  leaves : List Bytes
  root : Bytes
deriving DecidableEq

/-- Modelled from the spec: the leaf preprocessing of `FixedMerkle` — when
`hashed` is false the raw leaves are hashed first; the tree otherwise only
combines already-hashed leaves (spec section 4.1). -/
def hashLeaves (rawLeaves : List Bytes) (hashed : Bool) : List Bytes :=
  if hashed then rawLeaves else rawLeaves.map sha3

/-- Modelled from the spec: padding of the leaf level — when fewer than
`2 ^ depth` leaves are supplied, the remaining slots are filled with the
fixed padding-leaf value (spec section 4.1). -/
def padLeaves (depth : Nat) (leaves : List Bytes) : List Bytes :=
  leaves ++ List.replicate (2 ^ depth - leaves.length) EMPTY_LEAF

/-- Modelled from the spec: construction of a `FixedMerkle` of fixed depth
`depth` from a sequence of leaves (spec section 4.1).  Supplying more than
`2 ^ depth` leaves fails loudly with `TreeDepthExceeded` (spec section 7);
fewer leaves are padded with the fixed padding-leaf value and the root is
built bottom-up. -/
def FixedMerkle.create (depth : Nat) (rawLeaves : List Bytes) (hashed : Bool) :
    Except MerkleError FixedMerkle :=
  if (hashLeaves rawLeaves hashed).length > 2 ^ depth then
    Except.error MerkleError.TreeDepthExceeded
  else
    Except.ok
      { depth := depth
        leaves := padLeaves depth (hashLeaves rawLeaves hashed)
        root := buildRoot depth (padLeaves depth (hashLeaves rawLeaves hashed)) }

/-- Minimal big-endian byte representation of a natural number; the canonical
encoding of zero is the empty byte string (spec section 4.2). -/
def beBytes (n : Nat) : Bytes :=
  if h : n = 0 then []
  else beBytes (n / 256) ++ [n % 256]
termination_by n
decreasing_by exact Nat.div_lt_self (Nat.pos_of_ne_zero h) (by decide)

/-- Modelled from the spec: the recursive length-prefixed encoding scheme of
the RLP library (spec section 4.2) — header bytes carrying a payload length
over a given type offset. -/
def rlpLenHeader (offset : Nat) (len : Nat) : Bytes :=
  if len ≤ 55 then [offset + len]
  else (offset + 55 + (beBytes len).length) :: beBytes len

/-- Modelled from the spec: encoding of a byte-string item under the
length-prefixed scheme (spec section 4.2). -/
def rlpString (b : Bytes) : Bytes :=
  match b with
  | [x] => if x < 128 then [x] else rlpLenHeader 128 1 ++ b
  | _ => rlpLenHeader 128 b.length ++ b

/-- Modelled from the spec: encoding of a list is the concatenation of its
element encodings with a length header over the whole payload
(spec section 4.2). -/
def rlpList (payload : Bytes) : Bytes :=
  rlpLenHeader 192 payload.length ++ payload

/-- Modelled from the spec: encoding of an integer uses its minimal
big-endian representation as a byte-string item (spec section 4.2). -/
def rlpInt (n : Nat) : Bytes :=
  rlpString (beBytes n)

/-- The `Block` of `src/plasma_core/block.py`: an ordered transaction set, a
signature (the null sentinel when unsigned) and a block number. -/
structure Block where
  transaction_set : List Transaction
  sig : Bytes
  number : Nat
deriving DecidableEq

/-- `Block.encoded` (block.py lines 41-43): the canonical serialization of
`UnsignedBlockRLP(transaction_set, number)` — the RLP list of the
transaction-set list and the big-endian block number; the signature is not a
field of `UnsignedBlockRLP` and never enters the encoding. -/
def Block.encoded (b : Block) : Bytes :=
  rlpList (rlpList ((b.transaction_set.map Transaction.encodedBytes).flatten)
    ++ rlpInt b.number)

/-- `Block.hash` (block.py lines 24-26): `utils.sha3(self.encoded)`. -/
def Block.hash (b : Block) : Bytes :=
  sha3 b.encoded

/-- `Block.signer` (block.py lines 28-30):
`get_signer(self.hash, self.sig)`. -/
def Block.signer (b : Block) : Except SigError Bytes :=
  signatures.get_signer b.hash b.sig

/-- `Block.merklized_transaction_set` (block.py lines 32-35):
`FixedMerkle(16, [tx.merkle_hash for tx in self.transaction_set], hashed=True)`. -/
def Block.merklized_transaction_set (b : Block) : Except MerkleError FixedMerkle :=
  FixedMerkle.create 16 (b.transaction_set.map Transaction.merkle_hash) true

/-- `Block.root` (block.py lines 37-39): `self.merklized_transaction_set.root`. -/
def Block.root (b : Block) : Except MerkleError Bytes :=
  FixedMerkle.root <$> b.merklized_transaction_set

/-- Error raised by out-of-range sequence indexing in the host language. -/
inductive PyError where
  | IndexError
deriving DecidableEq

/-- Indexing `l[i]`, which raises `IndexError` when `i` is out of range. -/
def pyGetItem (l : List Transaction) (i : Nat) : Except PyError Transaction :=
  match l.get? i with
  | some t => Except.ok t
  | none => Except.error PyError.IndexError

/-- `Block.is_deposit_block` (block.py lines 45-47):
`len(self.transaction_set) == 1 and self.transaction_set[0].is_deposit`.
The conjunction short-circuits: the indexing is evaluated only when the
length test succeeds. -/
def Block.is_deposit_block (b : Block) : Except PyError Bool :=
  if b.transaction_set.length = 1 then do
    let t ← pyGetItem b.transaction_set 0
    pure t.is_deposit
  else
    pure false

/-- `Block.sign` (block.py lines 49-50): `self.sig = sign(self.hash, key)`;
in the functional rendering the mutation of the `sig` field becomes a
structure update, every other field carried over unchanged. -/
def Block.sign (b : Block) (key : Bytes) : Block :=
  { b with sig := signatures.sign b.hash key }

/-- Specification-style top-down reading of the fixed-depth binary Merkle
tree of section 4.1: the root of a depth-`d` tree over a full leaf level is
the hash of the roots of its left and right depth-`(d-1)` subtrees, left
before right; at depth 0 the tree is the single leaf.  This definition
follows the spec's wording and is compared against the bottom-up
construction the implementation uses. -/
def merkleTop : Nat → List Bytes → Bytes
  | 0, l => l.headD EMPTY_LEAF
  | d + 1, l => sha3 (merkleTop d (l.take (2 ^ d)) ++ merkleTop d (l.drop (2 ^ d)))

/-- A concrete deposit transaction, used as a test fixture. -/
def txD : Transaction := { encodedBytes := [1, 2, 3], is_deposit := true }

/-- A concrete non-deposit transaction, used as a test fixture. -/
def txN : Transaction := { encodedBytes := [4, 5], is_deposit := false }

/-- A concrete empty unsigned block. -/
def blockEmpty : Block := { transaction_set := [], sig := NULL_SIGNATURE, number := 0 }

/-- A second concrete empty block, with a different number and signature. -/
def blockEmpty2 : Block := { transaction_set := [], sig := [9, 9], number := 5 }

/-- A concrete empty block that differs from `blockEmpty` only in `sig`. -/
def blockEmptySig : Block := { transaction_set := [], sig := [8], number := 0 }

/-- A concrete two-transaction block. -/
def blockTwo : Block := { transaction_set := [txD, txN], sig := NULL_SIGNATURE, number := 3 }

/-- A concrete single-deposit-transaction block. -/
def blockDeposit : Block := { transaction_set := [txD], sig := NULL_SIGNATURE, number := 1 }

/-- A concrete block with `2 ^ 16 + 1` transactions. -/
def blockOverfull : Block :=
  { transaction_set := List.replicate 65537 txD, sig := NULL_SIGNATURE, number := 2 }

/-! ## Helper lemmas -/

theorem sha3_length (input : Bytes) : (sha3 input).length = 32 := by
  simp [sha3]

theorem address_of_length (key : Bytes) : (address_of key).length = 20 := by
  simp [address_of, sha3_length]

theorem sign_length (digest key : Bytes) : (signatures.sign digest key).length = 65 := by
  simp [signatures.sign, address_of_length, sha3_length]

theorem sign_ne_null (digest key : Bytes) : signatures.sign digest key ≠ NULL_SIGNATURE := by
  intro hcon
  have h1 : (signatures.sign digest key).headD 0 = NULL_SIGNATURE.headD 0 := by rw [hcon]
  have h2 : (signatures.sign digest key).headD 0 = 27 := rfl
  have h3 : NULL_SIGNATURE.headD 0 = 0 := by decide
  rw [h2, h3] at h1
  exact absurd h1 (by decide)

theorem get_signer_sign (digest key : Bytes) :
    signatures.get_signer digest (signatures.sign digest key) = Except.ok (address_of key) := by
  unfold signatures.get_signer
  rw [if_neg (sign_ne_null digest key), if_neg (by simp [sign_length])]
  unfold signatures.sign
  rw [List.drop_one, List.tail_cons, List.take_left' (address_of_length key)]

theorem combineLevel_length : ∀ l : List Bytes, l.length % 2 = 0 →
    (combineLevel l).length = l.length / 2
  | [], _ => rfl
  | [_], h => by simp at h
  | _ :: _ :: rest, h => by
    have hr : rest.length % 2 = 0 := by simp at h; omega
    simp [combineLevel, combineLevel_length rest hr]
    omega

theorem combineLevel_append : ∀ l₁ l₂ : List Bytes, l₁.length % 2 = 0 →
    combineLevel (l₁ ++ l₂) = combineLevel l₁ ++ combineLevel l₂
  | [], _, _ => rfl
  | [_], _, h => by simp at h
  | a :: b :: rest, l₂, h => by
    have hr : rest.length % 2 = 0 := by simp at h; omega
    cases l₂ with
    | nil => simp [combineLevel]
    | cons c cs =>
      simp only [List.cons_append, List.append_eq, combineLevel,
        combineLevel_append rest (c :: cs) hr]

theorem pow_succ_mod_two (d : Nat) : 2 ^ (d + 1) % 2 = 0 := by
  rw [Nat.pow_succ]
  simp [Nat.mul_mod_left]

theorem merkleTop_combineLevel : ∀ (d : Nat) (l : List Bytes), l.length = 2 ^ (d + 1) →
    merkleTop (d + 1) l = merkleTop d (combineLevel l) := by
  intro d
  induction d with
  | zero =>
    intro l hl
    cases l with
    | nil => simp at hl
    | cons a t =>
      cases t with
      | nil => simp at hl
      | cons b r =>
        have hr : r = [] := by
          simp only [List.length_cons] at hl
          exact List.eq_nil_of_length_eq_zero (by omega)
        subst hr
        rfl
  | succ d ih =>
    intro l hl
    have htlen : (l.take (2 ^ (d + 1))).length = 2 ^ (d + 1) := by
      rw [List.length_take, hl]
      have : 2 ^ (d + 1) ≤ 2 ^ (d + 2) := Nat.pow_le_pow_right (by omega) (by omega)
      omega
    have hdlen : (l.drop (2 ^ (d + 1))).length = 2 ^ (d + 1) := by
      rw [List.length_drop, hl, Nat.pow_succ 2 (d + 1)]
      omega
    have heven : (l.take (2 ^ (d + 1))).length % 2 = 0 := by
      rw [htlen]; exact pow_succ_mod_two d
    have hsplit : combineLevel l =
        combineLevel (l.take (2 ^ (d + 1))) ++ combineLevel (l.drop (2 ^ (d + 1))) := by
      conv_lhs => rw [← List.take_append_drop (2 ^ (d + 1)) l]
      exact combineLevel_append _ _ heven
    have hctlen : (combineLevel (l.take (2 ^ (d + 1)))).length = 2 ^ d := by
      rw [combineLevel_length _ heven, htlen, Nat.pow_succ]
      omega
    show sha3 (merkleTop (d + 1) (l.take (2 ^ (d + 1))) ++
        merkleTop (d + 1) (l.drop (2 ^ (d + 1)))) =
      sha3 (merkleTop d ((combineLevel l).take (2 ^ d)) ++
        merkleTop d ((combineLevel l).drop (2 ^ d)))
    rw [hsplit, List.take_left' hctlen, List.drop_left' hctlen,
      ih _ htlen, ih _ hdlen]

theorem buildRoot_eq_merkleTop : ∀ (d : Nat) (l : List Bytes), l.length = 2 ^ d →
    buildRoot d l = merkleTop d l := by
  intro d
  induction d with
  | zero => intro l _; rfl
  | succ d ih =>
    intro l hl
    have heven : l.length % 2 = 0 := by rw [hl]; exact pow_succ_mod_two d
    show buildRoot d (combineLevel l) = merkleTop (d + 1) l
    rw [merkleTop_combineLevel d l hl]
    refine ih _ ?_
    rw [combineLevel_length _ heven, hl, Nat.pow_succ]
    omega

theorem padLeaves_length (depth : Nat) (leaves : List Bytes)
    (h : leaves.length ≤ 2 ^ depth) : (padLeaves depth leaves).length = 2 ^ depth := by
  simp [padLeaves]
  omega

theorem hashLeaves_true (rawLeaves : List Bytes) : hashLeaves rawLeaves true = rawLeaves :=
  rfl

theorem create_root_ok (depth : Nat) (rawLeaves : List Bytes) (hashed : Bool)
    (h : ¬ (hashLeaves rawLeaves hashed).length > 2 ^ depth) :
    FixedMerkle.root <$> FixedMerkle.create depth rawLeaves hashed =
      Except.ok (buildRoot depth (padLeaves depth (hashLeaves rawLeaves hashed))) := by
  unfold FixedMerkle.create
  rw [if_neg h]
  rfl

theorem padLeaves_nil (depth : Nat) :
    padLeaves depth [] = List.replicate (2 ^ depth) EMPTY_LEAF := by
  unfold padLeaves
  rw [List.nil_append, List.length_nil, Nat.sub_zero]

theorem is_deposit_block_nil (b : Block) (h : b.transaction_set = []) :
    b.is_deposit_block = Except.ok false := by
  unfold Block.is_deposit_block
  rw [h]
  rfl

theorem is_deposit_block_single (b : Block) (t : Transaction)
    (h : b.transaction_set = [t]) : b.is_deposit_block = Except.ok t.is_deposit := by
  unfold Block.is_deposit_block
  rw [h]
  rfl

theorem is_deposit_block_many (b : Block) (t₁ t₂ : Transaction) (r : List Transaction)
    (h : b.transaction_set = t₁ :: t₂ :: r) : b.is_deposit_block = Except.ok false := by
  unfold Block.is_deposit_block
  rw [h, if_neg (by simp)]
  rfl

/-! ## Claim theorems -/

/-- C1: for every block whose `sig` field equals the null-signature sentinel
`NULL_SIGNATURE`, accessing the `signer` property fails with an
`InvalidSignature` error; it never returns an address value. -/
theorem signer_null_signature_invalid (b : Block) (h : b.sig = NULL_SIGNATURE) :
    b.signer = Except.error SigError.InvalidSignature := by
  simp [Block.signer, signatures.get_signer, h]

theorem signer_null_signature_invalid_witness :
    blockEmpty.signer = Except.error SigError.InvalidSignature :=
  signer_null_signature_invalid blockEmpty rfl

/-- C2: `sign(key)` changes only the `sig` field — the transaction set,
number, encoding and hash of the block are unchanged — and `encoded` is a
function of `(transaction_set, number)` only, never of `sig`. -/
theorem sign_changes_only_sig (b : Block) (key : Bytes) (b' : Block)
    (hts : b'.transaction_set = b.transaction_set) (hn : b'.number = b.number) :
    (b.sign key).transaction_set = b.transaction_set ∧
    (b.sign key).number = b.number ∧
    (b.sign key).encoded = b.encoded ∧
    (b.sign key).hash = b.hash ∧
    b'.encoded = b.encoded :=
  ⟨rfl, rfl, rfl, rfl, by simp [Block.encoded, hts, hn]⟩

theorem sign_changes_only_sig_witness :
    (blockEmpty.sign [7]).transaction_set = blockEmpty.transaction_set ∧
    (blockEmpty.sign [7]).number = blockEmpty.number ∧
    (blockEmpty.sign [7]).encoded = blockEmpty.encoded ∧
    (blockEmpty.sign [7]).hash = blockEmpty.hash ∧
    blockEmptySig.encoded = blockEmpty.encoded :=
  sign_changes_only_sig blockEmpty [7] blockEmptySig rfl rfl

/-- C3: for every block, `hash` equals the system's cryptographic hash
function applied to `encoded`, and the result is a 32-byte digest. -/
theorem hash_eq_sha3_encoded (b : Block) :
    b.hash = sha3 b.encoded ∧ b.hash.length = 32 :=
  ⟨rfl, sha3_length b.encoded⟩

/-- C4: for every block (whose transaction set fits the tree), `root` equals
the root of the fixed-depth-16 binary Merkle tree built over
`[tx.merkle_hash for tx in transaction_set]` in transaction-set order, with
the leaves treated as already hashed and the level padded with the fixed
padding leaf. -/
theorem root_eq_fixed_depth_merkle (b : Block) (h : b.transaction_set.length ≤ 2 ^ 16) :
    b.root = Except.ok
      (merkleTop 16 (padLeaves 16 (b.transaction_set.map Transaction.merkle_hash))) := by
  have hlen : (hashLeaves (b.transaction_set.map Transaction.merkle_hash) true).length =
      b.transaction_set.length := by simp [hashLeaves]
  have hpad : (padLeaves 16
      (hashLeaves (b.transaction_set.map Transaction.merkle_hash) true)).length = 2 ^ 16 :=
    padLeaves_length _ _ (by rw [hlen]; exact h)
  unfold Block.root Block.merklized_transaction_set
  rw [create_root_ok 16 (b.transaction_set.map Transaction.merkle_hash) true
      (by rw [hlen]; omega),
    buildRoot_eq_merkleTop 16 _ hpad, hashLeaves_true]

theorem root_eq_fixed_depth_merkle_witness :
    blockTwo.root = Except.ok
      (merkleTop 16 (padLeaves 16 (blockTwo.transaction_set.map Transaction.merkle_hash))) :=
  root_eq_fixed_depth_merkle blockTwo (by decide)

/-- C5: `is_deposit_block` returns true if and only if the transaction set
has exactly one element and that element's `is_deposit` flag is true; it
returns false for every block whose transaction count differs from one,
regardless of the deposit flags. -/
theorem is_deposit_block_correct (b : Block) :
    (b.is_deposit_block = Except.ok true ↔
      ∃ t, b.transaction_set = [t] ∧ t.is_deposit = true) ∧
    (b.transaction_set.length ≠ 1 → b.is_deposit_block = Except.ok false) := by
  constructor
  · constructor
    · intro hok
      match hts : b.transaction_set with
      | [] =>
        rw [is_deposit_block_nil b hts] at hok
        simp at hok
      | [t] =>
        refine ⟨t, rfl, ?_⟩
        rw [is_deposit_block_single b t hts] at hok
        exact Except.ok.inj hok
      | t₁ :: t₂ :: r =>
        rw [is_deposit_block_many b t₁ t₂ r hts] at hok
        simp at hok
    · rintro ⟨t, hts, hdep⟩
      rw [is_deposit_block_single b t hts, hdep]
  · intro hne
    match hts : b.transaction_set with
    | [] => exact is_deposit_block_nil b hts
    | [t] => exact absurd (by rw [hts]; rfl) hne
    | t₁ :: t₂ :: r => exact is_deposit_block_many b t₁ t₂ r hts

theorem is_deposit_block_correct_witness :
    blockTwo.is_deposit_block = Except.ok false :=
  (is_deposit_block_correct blockTwo).2 (by decide)

/-- C6: for every block `b` and private key `k`, after `b.sign(k)` the
`signer` property recovers exactly the address corresponding to `k`. -/
theorem sign_signer_roundtrip (b : Block) (key : Bytes) :
    (b.sign key).signer = Except.ok (address_of key) :=
  get_signer_sign b.hash key

/-- C7: determinism — any two blocks with the same transaction set and the
same number have byte-identical `encoded` values and byte-identical `hash`
values; repeated evaluation of the pure accessors yields the same bytes. -/
theorem encoded_hash_deterministic (b₁ b₂ : Block)
    (hts : b₁.transaction_set = b₂.transaction_set) (hn : b₁.number = b₂.number) :
    b₁.encoded = b₂.encoded ∧ b₁.hash = b₂.hash := by
  have he : b₁.encoded = b₂.encoded := by simp [Block.encoded, hts, hn]
  exact ⟨he, by simp only [Block.hash, he]⟩

theorem encoded_hash_deterministic_witness :
    blockEmpty.encoded = blockEmptySig.encoded ∧ blockEmpty.hash = blockEmptySig.hash :=
  encoded_hash_deterministic blockEmpty blockEmptySig rfl rfl

/-- C8: for every block whose transaction set has more than `2 ^ 16`
elements, the Merkle construction (`merklized_transaction_set`, and hence
`root`) fails with a `TreeDepthExceeded` error rather than silently
truncating the leaf sequence. -/
theorem merkle_tree_depth_exceeded (b : Block) (h : b.transaction_set.length > 2 ^ 16) :
    b.merklized_transaction_set = Except.error MerkleError.TreeDepthExceeded ∧
    b.root = Except.error MerkleError.TreeDepthExceeded := by
  have hm : b.merklized_transaction_set = Except.error MerkleError.TreeDepthExceeded := by
    unfold Block.merklized_transaction_set FixedMerkle.create
    rw [if_pos (by simpa [hashLeaves] using h)]
  refine ⟨hm, ?_⟩
  unfold Block.root
  rw [hm]
  rfl

theorem merkle_tree_depth_exceeded_witness :
    blockOverfull.merklized_transaction_set = Except.error MerkleError.TreeDepthExceeded ∧
    blockOverfull.root = Except.error MerkleError.TreeDepthExceeded :=
  merkle_tree_depth_exceeded blockOverfull
    (by simp only [blockOverfull, List.length_replicate]; decide)

/-- C9: every block with an empty transaction set has a `root` that succeeds
and equals the root of the all-padding depth-16 tree; in particular all
empty blocks share the same root value. -/
theorem empty_block_root (b b' : Block)
    (h : b.transaction_set = []) (h' : b'.transaction_set = []) :
    b.root = Except.ok (merkleTop 16 (List.replicate (2 ^ 16) EMPTY_LEAF)) ∧
    b.root = b'.root := by
  have hlen : (padLeaves 16 ([] : List Bytes)).length = 2 ^ 16 :=
    padLeaves_length 16 [] (by simp)
  have hgen : ∀ c : Block, c.transaction_set = [] →
      c.root = Except.ok (merkleTop 16 (List.replicate (2 ^ 16) EMPTY_LEAF)) := by
    intro c hc
    unfold Block.root Block.merklized_transaction_set
    rw [hc, List.map_nil, create_root_ok 16 [] true (by simp [hashLeaves]),
      hashLeaves_true, buildRoot_eq_merkleTop 16 _ hlen, padLeaves_nil]
  exact ⟨hgen b h, (hgen b h).trans (hgen b' h').symm⟩

theorem empty_block_root_witness :
    blockEmpty.root = Except.ok (merkleTop 16 (List.replicate (2 ^ 16) EMPTY_LEAF)) ∧
    blockEmpty.root = blockEmpty2.root :=
  empty_block_root blockEmpty blockEmpty2 rfl rfl

/-- C10: for every block with an empty transaction set, `is_deposit_block`
returns false without raising: the length test short-circuits the
conjunction, so the element access is never evaluated and the `IndexError`
branch is unreachable. -/
theorem empty_block_is_deposit_block_safe (b : Block) (h : b.transaction_set = []) :
    b.is_deposit_block = Except.ok false :=
  is_deposit_block_nil b h

theorem empty_block_is_deposit_block_safe_witness :
    blockEmpty.is_deposit_block = Except.ok false :=
  empty_block_is_deposit_block_safe blockEmpty rfl
